import Mathlib

/-!
Verification of the coordination core of the `swarm` repository
(task distributor, message bus, collective-intelligence voting, swarm
manager).  Python code is shallowly embedded: dictionaries become
insertion-ordered association lists (Python dicts preserve insertion
order), `float` arithmetic on confidences/weights becomes exact
rational arithmetic (`ℚ`), successive wall-clock reads (`time.time()`)
become a strictly increasing `Nat` tick, and code paths that raise an
exception return `none`.  Wall-clock metadata fields that nothing here
depends on (`assigned_at`, `last_activity`, vote timestamps) are
omitted.
-/

namespace Swarm

/-! ## Association-list helpers (Python `dict` semantics) -/

/-- Lookup in an insertion-ordered association list (Python `d[k]` /
`k in d`). -/
def qlookup {α : Type} (k : String) : List (String × α) → Option α
  | [] => none
  | (k', v) :: t => if k' = k then some v else qlookup k t

/-- Python `d[k] = v`: overwrite in place if the key exists, else append. -/
def setKey {α : Type} : List (String × α) → String → α → List (String × α)
  | [], k, v => [(k, v)]
  | (k', v') :: t, k, v =>
    if k' = k then (k', v) :: t else (k', v') :: setKey t k v

/-- Python `d[k] = d.get(k, 0) + w` (the accumulate-into-dict idiom used
by the voting routines). -/
def addTo : List (String × ℚ) → String → ℚ → List (String × ℚ)
  | [], k, w => [(k, w)]
  | (k', v) :: t, k, w =>
    if k' = k then (k', v + w) :: t else (k', v) :: addTo t k w

/-- Sum of the values of an association list (Python `sum(d.values())`). -/
def valsum (l : List (String × ℚ)) : ℚ := (l.map Prod.snd).sum

/-- Python `max(d.items(), key=lambda x: x[1])`: the first item attaining
the maximal value (later items replace the current best only when
strictly greater). -/
def argmaxSnd : List (String × ℚ) → Option (String × ℚ)
  | [] => none
  | h :: t => some (t.foldl (fun best x => if best.2 < x.2 then x else best) h)

/-! ## Agent model (`src/swarm/core/agent.py`) -/

/-- `AgentState` enum. -/
inductive AgentState
  | idle
  | working
  | waiting
  | error
  | shutdown
deriving DecidableEq

/-- `AgentCapability` dataclass (the `parameters` map is opaque and
unused by the coordination core; omitted). -/
structure AgentCapability where
  name : String
  description : String
  confidence : ℚ
deriving DecidableEq

/-- `Task` dataclass.  `content` and `context` are opaque payloads; we
keep `content` as a string and omit `context` (never read by the
coordination core). -/
structure Task where
  id : String
  content : String
  priority : Int := 1
  requirements : List String := []
  timeout : Option ℚ := none
deriving DecidableEq

/-- `TaskResult` dataclass; `result` is the opaque success payload. -/
structure TaskResult where
  task_id : String
  agent_id : String
  success : Bool
  result : Option String := none
  error_message : Option String := none
  execution_time : ℚ := 0
  confidence : ℚ := 1
deriving DecidableEq

/-- The fields of `Agent` that the coordination core reads or writes
(`message_handlers` and the logger are omitted). -/
structure Agent where
  id : String
  name : String
  state : AgentState := .idle
  max_concurrent_tasks : Nat := 1
  current_tasks : List (String × Task) := []
  completed_tasks : List TaskResult := []
  capabilities : List (String × AgentCapability) := []
deriving DecidableEq

/-- `Agent.can_handle_task`: false when the agent is at its concurrency
limit, or when some required capability is missing. -/
def can_handle_task (a : Agent) (t : Task) : Bool :=
  if a.max_concurrent_tasks ≤ a.current_tasks.length then false
  else t.requirements.all fun r => (qlookup r a.capabilities).isSome

/-- Outcome of one run of the abstract `_execute_task_impl` raced
against the optional timeout: the domain result, an
`asyncio.TimeoutError`, or an internal exception with its message. -/
inductive ExecOutcome
  | ok (res : String) (execution_time : ℚ)
  | timedOut
  | raised (msg : String) (execution_time : ℚ)
deriving DecidableEq

/-- `Agent.execute_task`.  The early-return path (agent cannot accept)
touches nothing; otherwise the state goes to WORKING, the task is
entered into `current_tasks`, the outcome branch builds the
`TaskResult` (the timeout branch leaves `execution_time` at its 0.0
default, as in the source), and the `finally` block removes the task,
appends the result and restores IDLE. -/
def execute_task (a : Agent) (t : Task) (o : ExecOutcome) : Agent × TaskResult :=
  if ¬ can_handle_task a t then
    (a, { task_id := t.id, agent_id := a.id, success := false,
          error_message := some "Агент не может выполнить эту задачу" })
  else
    let working : Agent :=
      { a with state := .working, current_tasks := setKey a.current_tasks t.id t }
    let r : TaskResult :=
      match o with
      | .ok res dur =>
          { task_id := t.id, agent_id := a.id, success := true,
            result := some res, execution_time := dur }
      | .timedOut =>
          { task_id := t.id, agent_id := a.id, success := false,
            error_message := some "Превышено время выполнения задачи" }
      | .raised msg dur =>
          { task_id := t.id, agent_id := a.id, success := false,
            error_message := some msg, execution_time := dur }
    let cleaned : Agent :=
      { working with
          current_tasks := working.current_tasks.filter (fun p => p.1 != t.id),
          completed_tasks := working.completed_tasks ++ [r],
          state := .idle }
    (cleaned, r)

/-! ## Task distributor (`src/swarm/tasks/task_distributor.py`) -/

/-- `TaskStatus` enum. -/
inductive TaskStatus
  | pending
  | assigned
  | in_progress
  | completed
  | failed
  | cancelled
deriving DecidableEq

/-- `DistributionStrategy` enum. -/
inductive DistributionStrategy
  | round_robin
  | load_balanced
  | capability_based
  | priority_based
  | performance_based
deriving DecidableEq

/-- `TaskAssignment` dataclass (wall-clock fields `assigned_at`,
`started_at`, `completed_at` omitted). -/
structure TaskAssignment where
  task : Task
  agent_id : String
  status : TaskStatus := .assigned
  attempts : Nat := 0
  max_attempts : Nat := 3
deriving DecidableEq

/-- `AgentPerformance` dataclass (wall-clock `last_activity` omitted).
`current_load` is an `int` kept non-negative by the source's
`max(0, load - 1)` updates, so `Nat` with truncated subtraction is
exact. -/
structure AgentPerformance where
  agent_id : String
  total_tasks : Nat := 0
  successful_tasks : Nat := 0
  failed_tasks : Nat := 0
  average_execution_time : ℚ := 0
  current_load : Nat := 0
  reliability_score : ℚ := 1
deriving DecidableEq

/-- One entry of the pending-task heap.  The source pushes the tuple
`(-task.priority, time.time(), task)`; successive `time.time()` reads
are modelled as a strictly increasing `Nat` tick (`seq`), so the first
tuple component is always determined by `task` and only `seq` and
`task` need storing. -/
structure QEntry where
  seq : Nat
  task : Task
deriving DecidableEq

/-- Python's lexicographic order on the pushed tuples
`(-priority, seq)`. -/
def keyLeB (a b : QEntry) : Bool :=
  decide (-a.task.priority < -b.task.priority) ||
    (decide ((-a.task.priority : Int) = -b.task.priority) && decide (a.seq ≤ b.seq))

/-- `heapq.heappop`: removes and returns the entry with the smallest
tuple `(-priority, seq)`.  With all `seq` values distinct the minimum
is unique, so the heap's internal array layout is irrelevant and the
backlog can be carried as a plain list. -/
def popMin : List QEntry → Option (QEntry × List QEntry)
  | [] => none
  | e :: rest =>
    match popMin rest with
    | none => some (e, [])
    | some (m, rest') =>
      if keyLeB e m then some (e, rest) else some (m, e :: rest')

/-- Repeatedly popping the heap until empty (the order in which
`distribute_tasks` consumes the backlog). -/
def popAllFuel : Nat → List QEntry → List QEntry
  | 0, _ => []
  | n + 1, q =>
    match popMin q with
    | none => []
    | some (e, rest) => e :: popAllFuel n rest

/-- All entries of the backlog in pop order. -/
def popAll (q : List QEntry) : List QEntry := popAllFuel q.length q

/-- The mutable state of `TaskDistributor` (callbacks and logger
omitted; `SwarmManager` leaves `on_task_assigned` unset). -/
structure DistState where
  strategy : DistributionStrategy := .load_balanced
  task_queue : List QEntry := []
  assignments : List (String × TaskAssignment) := []
  agent_performance : List (String × AgentPerformance) := []
  agents : List Agent := []
  round_robin_index : Nat := 0
  clock : Nat := 0
deriving DecidableEq

/-- `self.agents[agent.id] = agent`: dict overwrite-or-append keyed on
the agent's id. -/
def setAgent : List Agent → Agent → List Agent
  | [], a => [a]
  | b :: t, a => if b.id = a.id then a :: t else b :: setAgent t a

/-- `TaskDistributor.register_agent`. -/
def register_agent (a : Agent) (s : DistState) : DistState :=
  { s with
      agents := setAgent s.agents a,
      agent_performance := setKey s.agent_performance a.id { agent_id := a.id } }

/-- `TaskDistributor.add_task`: `heappush` of
`(-task.priority, time.time(), task)`; the clock tick models the
`time.time()` read. -/
def add_task (t : Task) (s : DistState) : DistState :=
  { s with task_queue := s.task_queue ++ [⟨s.clock, t⟩], clock := s.clock + 1 }

/-- Enqueue a whole list of tasks in order (a sequence of `add_task`
calls). -/
def enqueueAll (ts : List Task) (s : DistState) : DistState :=
  ts.foldl (fun s t => add_task t s) s

/-- The probe task `Task(id="dummy", content="")` used by
`_has_available_agents`. -/
def dummyTask : Task := { id := "dummy", content := "" }

/-- `TaskDistributor._has_available_agents`. -/
def has_available_agents (s : DistState) : Bool :=
  s.agents.any fun a =>
    can_handle_task a dummyTask && decide (a.state = AgentState.idle)

/-- An agent is eligible for a task when it can handle it and is idle
(the check every selection strategy repeats). -/
def eligible (a : Agent) (t : Task) : Bool :=
  can_handle_task a t && decide (a.state = AgentState.idle)

/-- Performance entry for an agent id.  `register_agent` and
`unregister_agent` keep `agents` and `agent_performance` keyed
identically, so the fallback fresh record is never read; the source
would raise `KeyError` there. -/
def perfOf (s : DistState) (aid : String) : AgentPerformance :=
  (qlookup aid s.agent_performance).getD { agent_id := aid }

/-- Tuple order used by `available_agents.sort()` in the load-balanced
strategy: ascending `(current_load, agent_id)` with Python's string
order on ids. -/
def lbKeyLt (x y : Nat × String) : Bool :=
  decide (x.1 < y.1) || (decide (x.1 = y.1) && decide (x.2 < y.2))

/-- `TaskDistributor._find_agent_load_balanced`: the eligible idle agent
with the smallest `(current_load, agent_id)` tuple. -/
def find_agent_load_balanced (s : DistState) (t : Task) : Option String :=
  let available := (s.agents.filter (fun a => eligible a t)).map
    fun a => ((perfOf s a.id).current_load, a.id)
  match available with
  | [] => none
  | h :: tl => some (tl.foldl (fun best x => if lbKeyLt x best then x else best) h).2

/-- `TaskDistributor._calculate_capability_score`. -/
def calculate_capability_score (a : Agent) (t : Task) : ℚ :=
  if t.requirements = [] then 1
  else
    let matched := t.requirements.filter fun r => (qlookup r a.capabilities).isSome
    if matched.length = 0 then 0
    else
      let total := (matched.map fun r =>
        ((qlookup r a.capabilities).map AgentCapability.confidence).getD 0).sum
      (total / matched.length) * ((matched.length : ℚ) / t.requirements.length)

/-- Shared shape of the score-maximising searches: scan the agents in
registration order keeping the first strictly-greater score, starting
from `best_score = 0` (so an all-zero scan returns no agent). -/
def bestByScore (s : DistState) (t : Task) (score : Agent → ℚ) : Option String :=
  (s.agents.foldl
    (fun best a =>
      if eligible a t && decide (best.2 < score a) then (some a.id, score a) else best)
    ((none : Option String), (0 : ℚ))).1

/-- `TaskDistributor._find_agent_capability_based`. -/
def find_agent_capability_based (s : DistState) (t : Task) : Option String :=
  bestByScore s t fun a => calculate_capability_score a t

/-- `TaskDistributor._find_agent_performance_based`:
reliability × 1/(avg_time+1) × 1/(load+1). -/
def find_agent_performance_based (s : DistState) (t : Task) : Option String :=
  bestByScore s t fun a =>
    let perf := perfOf s a.id
    perf.reliability_score * (1 / (perf.average_execution_time + 1)) *
      (1 / ((perf.current_load : ℚ) + 1))

/-- `TaskDistributor._find_agent_priority_based`. -/
def find_agent_priority_based (s : DistState) (t : Task) : Option String :=
  if 8 ≤ t.priority then find_agent_performance_based s t
  else find_agent_load_balanced s t

/-- The round-robin scan: up to `len(agent_ids)` probes, advancing
`round_robin_index` once per probe (also on the successful one). -/
def rrScan (agents : List Agent) (t : Task) : Nat → Nat → Option String × Nat
  | 0, idx => (none, idx)
  | n + 1, idx =>
    match agents.get? (idx % agents.length) with
    | none => (none, idx)
    | some a =>
      if eligible a t then (some a.id, idx + 1)
      else rrScan agents t n (idx + 1)

/-- `TaskDistributor._find_agent_round_robin`. -/
def find_agent_round_robin (s : DistState) (t : Task) : Option String × DistState :=
  if s.agents.isEmpty then (none, s)
  else
    let (r, idx) := rrScan s.agents t s.agents.length s.round_robin_index
    (r, { s with round_robin_index := idx })

/-- `TaskDistributor._find_best_agent`: dispatch on the configured
strategy (only round-robin mutates state). -/
def find_best_agent (s : DistState) (t : Task) : Option String × DistState :=
  match s.strategy with
  | .round_robin => find_agent_round_robin s t
  | .load_balanced => (find_agent_load_balanced s t, s)
  | .capability_based => (find_agent_capability_based s t, s)
  | .priority_based => (find_agent_priority_based s t, s)
  | .performance_based => (find_agent_performance_based s t, s)

/-- Body of the `while` loop of `TaskDistributor.distribute_tasks`.
Each iteration that assigns a task shrinks the backlog by one, and the
no-agent branch pushes the task back (with a fresh `time.time()` tick)
and breaks, so `task_queue.length` steps of fuel always suffice. -/
def distributeLoop : Nat → DistState → List TaskAssignment → DistState × List TaskAssignment
  | 0, s, acc => (s, acc)
  | fuel + 1, s, acc =>
    if !s.task_queue.isEmpty && has_available_agents s then
      match popMin s.task_queue with
      | none => (s, acc)
      | some (e, rest) =>
        let s1 : DistState := { s with task_queue := rest }
        match find_best_agent s1 e.task with
        | (some aid, s2) =>
          let asg : TaskAssignment := { task := e.task, agent_id := aid }
          let perf := perfOf s2 aid
          let s3 : DistState :=
            { s2 with
                assignments := setKey s2.assignments e.task.id asg,
                agent_performance := setKey s2.agent_performance aid
                  { perf with current_load := perf.current_load + 1 } }
          distributeLoop fuel s3 (acc ++ [asg])
        | (none, s2) =>
          ({ s2 with task_queue := s2.task_queue ++ [⟨s2.clock, e.task⟩],
                     clock := s2.clock + 1 }, acc)
    else (s, acc)

/-- `TaskDistributor.distribute_tasks`. -/
def distribute_tasks (s : DistState) : DistState × List TaskAssignment :=
  distributeLoop s.task_queue.length s []

/-- `TaskDistributor.handle_task_result`.  An unknown task id just
returns; a result naming an unregistered agent would raise `KeyError`
on the performance lookup, modelled as `none`. -/
def handle_task_result (r : TaskResult) (s : DistState) : Option DistState :=
  match qlookup r.task_id s.assignments with
  | none => some s
  | some asg =>
    match qlookup r.agent_id s.agent_performance with
    | none => none
    | some perf0 =>
      let perf1 : AgentPerformance :=
        { perf0 with
            total_tasks := perf0.total_tasks + 1,
            current_load := perf0.current_load - 1 }
      if r.success then
        let asg' : TaskAssignment := { asg with status := .completed }
        let perf2 : AgentPerformance :=
          { perf1 with
              successful_tasks := perf1.successful_tasks + 1,
              average_execution_time :=
                if 1 < perf1.total_tasks then
                  (perf1.average_execution_time * (perf1.total_tasks - 1 : ℚ) +
                    r.execution_time) / (perf1.total_tasks : ℚ)
                else r.execution_time }
        let perf3 : AgentPerformance :=
          { perf2 with
              reliability_score :=
                if 0 < perf2.total_tasks then
                  (perf2.successful_tasks : ℚ) / (perf2.total_tasks : ℚ)
                else 1 }
        some { s with
                 assignments := setKey s.assignments r.task_id asg',
                 agent_performance := setKey s.agent_performance r.agent_id perf3 }
      else
        let attempts' := asg.attempts + 1
        let perf2 : AgentPerformance :=
          { perf1 with failed_tasks := perf1.failed_tasks + 1 }
        let perf3 : AgentPerformance :=
          { perf2 with
              reliability_score :=
                if 0 < perf2.total_tasks then
                  (perf2.successful_tasks : ℚ) / (perf2.total_tasks : ℚ)
                else 1 }
        let retry := attempts' < asg.max_attempts
        let asg' : TaskAssignment :=
          { asg with attempts := attempts',
                     status := if retry then .pending else .failed }
        let s1 : DistState :=
          { s with
              assignments := setKey s.assignments r.task_id asg',
              agent_performance := setKey s.agent_performance r.agent_id perf3 }
        some (if retry then add_task asg.task s1 else s1)


/-! ## Message bus (`src/swarm/communication/message_bus.py`) -/

/-- `MessagePriority` enum. -/
inductive MessagePriority
  | low
  | normal
  | high
  | critical
deriving DecidableEq

/-- `Message` dataclass (`content` is an opaque payload, kept as a
string). -/
structure Message where
  id : String
  sender_id : String
  receiver_id : Option String
  message_type : String
  content : String
  priority : MessagePriority := .normal
  timestamp : ℚ := 0
  ttl : Option ℚ := none
  requires_response : Bool := false
  correlation_id : Option String := none
deriving DecidableEq

/-- The mutable state of `MessageBus`.  Handler tables are omitted (no
claim touches `process_message`); each mailbox is the FIFO content of
the agent's `asyncio.Queue`. -/
structure BusState where
  max_queue_size : Nat := 1000
  message_queues : List (String × List Message) := []
  message_history : List Message := []
  running : Bool := false
  messages_sent : Nat := 0
  messages_delivered : Nat := 0
  messages_dropped : Nat := 0
  broadcast_messages : Nat := 0
deriving DecidableEq

namespace MessageBus

/-- `MessageBus.register_agent`: create a fresh bounded mailbox unless
the id is already registered. -/
def register_agent (aid : String) (s : BusState) : BusState :=
  if (qlookup aid s.message_queues).isSome then s
  else { s with message_queues := s.message_queues ++ [(aid, [])] }

/-- The source's TTL test
`message.ttl and (time.time() - message.timestamp) > message.ttl`.
A `ttl` of exactly 0.0 is falsy in Python, so it disables the check. -/
def isExpired (now : ℚ) (m : Message) : Bool :=
  match m.ttl with
  | none => false
  | some t => decide (t ≠ 0) && decide (t < now - m.timestamp)

/-- An `asyncio.Queue(maxsize=n)` is full when `n > 0` and it holds at
least `n` items (`maxsize <= 0` means unbounded). -/
def queueFull (s : BusState) (q : List Message) : Bool :=
  decide (0 < s.max_queue_size) && decide (s.max_queue_size ≤ q.length)

/-- `MessageBus._deliver_to_agent`.  The source does
`await queue.put(message)`: when the mailbox is full this call
*suspends the sender* until a consumer frees a slot — `asyncio.QueueFull`
is raised only by `put_nowait`, so the `except QueueFull` branch that
would count the message as dropped is unreachable.  The suspension is
modelled as `none`.  A missing mailbox raises `KeyError`, caught by the
generic `except` branch, which counts a drop and returns `False`. -/
def deliver_to_agent (s : BusState) (aid : String) (m : Message) :
    Option (Bool × BusState) :=
  match qlookup aid s.message_queues with
  | none => some (false, { s with messages_dropped := s.messages_dropped + 1 })
  | some q =>
    if queueFull s q then none
    else some (true,
      { s with
          message_queues := setKey s.message_queues aid (q ++ [m]),
          messages_delivered := s.messages_delivered + 1 })

/-- The `for agent_id in self.message_queues` loop of
`_broadcast_message`, iterating over the registered ids in insertion
order and skipping the sender. -/
def broadcastGo (m : Message) : List String → Nat → BusState → Option (Bool × BusState)
  | [], cnt, s => some (decide (0 < cnt), s)
  | aid :: rest, cnt, s =>
    if aid = m.sender_id then broadcastGo m rest cnt s
    else
      match deliver_to_agent s aid m with
      | none => none
      | some (true, s') => broadcastGo m rest (cnt + 1) s'
      | some (false, s') => broadcastGo m rest cnt s'

/-- `MessageBus._broadcast_message`. -/
def broadcast_message (m : Message) (s : BusState) : Option (Bool × BusState) :=
  broadcastGo m (s.message_queues.map Prod.fst) 0
    { s with broadcast_messages := s.broadcast_messages + 1 }

/-- `MessageBus._send_directed_message`. -/
def send_directed_message (rid : String) (m : Message) (s : BusState) :
    Option (Bool × BusState) :=
  if (qlookup rid s.message_queues).isNone then
    some (false, { s with messages_dropped := s.messages_dropped + 1 })
  else deliver_to_agent s rid m

/-- `MessageBus.send_message`. -/
def send_message (now : ℚ) (m : Message) (s : BusState) : Option (Bool × BusState) :=
  if !s.running then some (false, s)
  else
    let s1 : BusState := { s with messages_sent := s.messages_sent + 1 }
    if isExpired now m then
      some (false, { s1 with messages_dropped := s1.messages_dropped + 1 })
    else
      let s2 : BusState := { s1 with message_history := s1.message_history ++ [m] }
      match m.receiver_id with
      | none => broadcast_message m s2
      | some rid => send_directed_message rid m s2

/-- `MessageBus.receive_message` for one poll: pop the mailbox head (the
`queue.get()` consumes it), then discard it as `None` when expired; an
empty mailbox models the `asyncio.wait_for` timeout. -/
def receive_message (now : ℚ) (aid : String) (s : BusState) :
    Option Message × BusState :=
  match qlookup aid s.message_queues with
  | none => (none, s)
  | some [] => (none, s)
  | some (m :: rest) =>
    let s' : BusState := { s with message_queues := setKey s.message_queues aid rest }
    if isExpired now m then (none, s') else (some m, s')

/-- The acceptance test of the `send_request_response` wait loop: the
received message must be unexpired (else `receive_message` already
returned `None` for it), carry the matching correlation id, and have
message type `<type>_response`. -/
def responseMatches (corrId msgType : String) (now : ℚ) (m : Message) : Bool :=
  !(isExpired now m) && decide (m.correlation_id = some corrId) &&
    decide (m.message_type = msgType ++ "_response")

/-- The wait loop of `MessageBus.send_request_response`, acting on the
sender's own mailbox: each iteration consumes the mailbox head
(`receive_message` pops it); a non-matching or expired head is
discarded and the loop continues; a matching head returns its content.
`fuel` counts the remaining 1-second polls before the timeout. -/
def pollForResponse (corrId msgType : String) (now : ℚ) :
    Nat → List Message → Option String × List Message
  | 0, mb => (none, mb)
  | fuel + 1, [] => pollForResponse corrId msgType now fuel []
  | fuel + 1, m :: rest =>
    if responseMatches corrId msgType now m then (some m.content, rest)
    else pollForResponse corrId msgType now fuel rest

/-- `MessageBus.send_request_response`: send the tagged request (with
the fresh ids passed in for the two `uuid.uuid4()` reads), then poll
the sender's own mailbox for the correlated response. -/
def send_request_response (now : ℚ) (corrId reqMsgId : String)
    (sender receiver msgType content : String) (polls : Nat) (s : BusState) :
    Option (Option String × BusState) :=
  let request : Message :=
    { id := reqMsgId, sender_id := sender, receiver_id := some receiver,
      message_type := msgType, content := content, timestamp := now,
      requires_response := true, correlation_id := some corrId }
  match send_message now request s with
  | none => none
  | some (false, s') => some (none, s')
  | some (true, s') =>
    match qlookup sender s'.message_queues with
    | none => some (none, s')
    | some mb =>
      let pr := pollForResponse corrId msgType now polls mb
      some (pr.1, { s' with message_queues := setKey s'.message_queues sender pr.2 })

end MessageBus

/-! ## Collective intelligence
(`src/swarm/intelligence/collective_intelligence.py`) -/

/-- `Vote` dataclass (timestamp omitted; the chosen option is an opaque
value, kept as a string). -/
structure Vote where
  agent_id : String
  option : String
  confidence : ℚ := 1
  reasoning : Option String := none
deriving DecidableEq

/-- The `metadata` dict attached to a `CollectiveDecision`: each voting
method stores one specific payload. -/
inductive DecisionMetadata
  | voteCounts (counts : List (String × ℚ))
  | weightedScores (scores : List (String × ℚ))
  | bordaScores (scores : List (String × ℚ))
  | requiredThreshold (thr : ℚ)
deriving DecidableEq

/-- `CollectiveDecision` dataclass (timestamp omitted). -/
structure CollectiveDecision where
  decision : Option String
  confidence : ℚ
  votes : List Vote
  method_used : String
  metadata : DecisionMetadata
deriving DecidableEq

namespace CollectiveIntelligence

/-- `self.agent_reputation.get(agent_id, 1.0)`. -/
def reputationOf (rep : List (String × ℚ)) (aid : String) : ℚ :=
  (qlookup aid rep).getD 1

/-- The weight a vote contributes in weighted voting:
`confidence × reputation`. -/
def voteWeight (rep : List (String × ℚ)) (v : Vote) : ℚ :=
  v.confidence * reputationOf rep v.agent_id

/-- The `vote_counts` dict built by `_majority_voting` (Python `int`
counts embed exactly in `ℚ`). -/
def vote_counts (votes : List Vote) : List (String × ℚ) :=
  votes.foldl (fun acc v => addTo acc v.option 1) []

/-- `CollectiveIntelligence._majority_voting`.  `max` over an empty
dict raises `ValueError`, modelled as `none`; the `options` argument is
unused, as in the source. -/
def majority_voting (votes : List Vote) (options : List String) :
    Option CollectiveDecision :=
  match argmaxSnd (vote_counts votes) with
  | none => none
  | some w =>
    some { decision := some w.1, confidence := w.2 / (votes.length : ℚ),
           votes := votes, method_used := "majority",
           metadata := .voteCounts (vote_counts votes) }

/-- The un-normalised `weighted_scores` dict of `_weighted_voting`. -/
def weighted_scores_raw (rep : List (String × ℚ)) (votes : List Vote) :
    List (String × ℚ) :=
  votes.foldl (fun acc v => addTo acc v.option (voteWeight rep v)) []

/-- The running `total_weight` accumulated by `_weighted_voting`. -/
def total_weight (rep : List (String × ℚ)) (votes : List Vote) : ℚ :=
  (votes.map (voteWeight rep)).sum

/-- `CollectiveIntelligence._weighted_voting`.  With a non-empty score
dict and `total_weight == 0` the normalisation loop raises
`ZeroDivisionError`; with an empty dict, `max` raises `ValueError`;
both are modelled as `none`. -/
def weighted_voting (rep : List (String × ℚ)) (votes : List Vote)
    (options : List String) : Option CollectiveDecision :=
  let raw := weighted_scores_raw rep votes
  if raw.isEmpty then none
  else if total_weight rep votes = 0 then none
  else
    let scores := raw.map fun p => (p.1, p.2 / total_weight rep votes)
    match argmaxSnd scores with
    | none => none
    | some w =>
      some { decision := some w.1, confidence := w.2, votes := votes,
             method_used := "weighted", metadata := .weightedScores scores }

/-- `self.consensus_threshold` (0.7). -/
def consensus_threshold : ℚ := 7 / 10

/-- `CollectiveIntelligence._consensus_voting`: run weighted voting;
relabel its result as "consensus" when its confidence reaches the
threshold, else return the null decision tagged "consensus_failed"
with the threshold recorded in the metadata. -/
def consensus_voting (rep : List (String × ℚ)) (votes : List Vote)
    (options : List String) : Option CollectiveDecision :=
  match weighted_voting rep votes options with
  | none => none
  | some w =>
    if consensus_threshold ≤ w.confidence then
      some { w with method_used := "consensus" }
    else
      some { decision := none, confidence := 0, votes := votes,
             method_used := "consensus_failed",
             metadata := .requiredThreshold consensus_threshold }

/-- The `borda_scores` dict initialiser `{option: 0 for option in
options}` (duplicate options collapse, as in a dict comprehension). -/
def borda_init (options : List String) : List (String × ℚ) :=
  options.foldl (fun acc o => setKey acc o 0) []

/-- The accumulation loop of `_borda_count_voting`: a vote for a listed
option adds `(len(options) - 1) × confidence × reputation` points. -/
def borda_scores (rep : List (String × ℚ)) (votes : List Vote)
    (options : List String) : List (String × ℚ) :=
  votes.foldl
    (fun acc v =>
      if (qlookup v.option acc).isSome then
        addTo acc v.option
          (((options.length : ℚ) - 1) * v.confidence * reputationOf rep v.agent_id)
      else acc)
    (borda_init options)

/-- The score table `_borda_count_voting` takes the maximum over:
normalised by `total_score` when that is positive (the guarded
`total_score > 0` branch), otherwise the raw scores. -/
def borda_final (rep : List (String × ℚ)) (votes : List Vote)
    (options : List String) : List (String × ℚ) :=
  if 0 < valsum (borda_scores rep votes options) then
    (borda_scores rep votes options).map
      (fun p => (p.1, p.2 / valsum (borda_scores rep votes options)))
  else borda_scores rep votes options

/-- `CollectiveIntelligence._borda_count_voting`.  Normalisation is
guarded by `total_score > 0`; `max` over the empty dict (empty
`options`) raises, modelled as `none`. -/
def borda_count_voting (rep : List (String × ℚ)) (votes : List Vote)
    (options : List String) : Option CollectiveDecision :=
  match argmaxSnd (borda_final rep votes options) with
  | none => none
  | some w =>
    some { decision := some w.1, confidence := w.2, votes := votes,
           method_used := "borda_count",
           metadata := .bordaScores (borda_final rep votes options) }

end CollectiveIntelligence

/-! ## Swarm manager (`src/swarm/core/swarm_manager.py`) -/

/-- The fields of `SwarmConfig` the modelled operations read (interval
and timeout floats are wall-clock tuning, omitted). -/
structure SwarmConfig where
  max_agents : Nat := 10
  task_distribution_strategy : DistributionStrategy := .load_balanced
  message_queue_size : Nat := 1000
deriving DecidableEq

/-- The registration-related state of `SwarmManager`: its message bus,
its task distributor and its own `agents` / `agent_tasks` dicts.
`SwarmManager` holds **no** `CollectiveIntelligence` member. -/
structure ManagerState where
  config : SwarmConfig := {}
  message_bus : BusState := {}
  task_distributor : DistState := {}
  agents : List (String × Agent) := []
  agent_tasks : List (String × List String) := []
deriving DecidableEq

/-- The registration state of a `CollectiveIntelligence` instance. -/
structure CIState where
  agents : List (String × Agent) := []
  agent_reputation : List (String × ℚ) := []
deriving DecidableEq

/-- `CollectiveIntelligence.register_agent`. -/
def registerAgentCI (a : Agent) (ci : CIState) : CIState :=
  { agents := setKey ci.agents a.id a,
    agent_reputation := setKey ci.agent_reputation a.id 1 }

/-- A swarm manager paired with a (standalone) collective-intelligence
aggregator.  The source's `SwarmManager` constructs a bus and a
distributor but no aggregator; pairing one alongside lets the spec's
"registered in all three subsystems" be stated.  `add_agent` is
translated from the source and never touches the aggregator. -/
structure System where
  manager : ManagerState := {}
  aggregator : CIState := {}
deriving DecidableEq

/-- `SwarmManager.add_agent`: reject when at `max_agents` capacity or
when the id is already present; otherwise register with the message
bus and the task distributor and record the agent.  (The body's
`try/except` can only return `False` if a registration raises, which
neither `register_agent` can.) -/
def add_agent (a : Agent) (sys : System) : Bool × System :=
  if sys.manager.config.max_agents ≤ sys.manager.agents.length then (false, sys)
  else if (qlookup a.id sys.manager.agents).isSome then (false, sys)
  else
    (true,
      { sys with
          manager :=
            { sys.manager with
                message_bus := MessageBus.register_agent a.id sys.manager.message_bus,
                task_distributor := register_agent a sys.manager.task_distributor,
                agents := setKey sys.manager.agents a.id a,
                agent_tasks := setKey sys.manager.agent_tasks a.id [] } })


/-! ## Concrete scenarios used by individual claims -/

/-- C1 scenario: a single always-failing agent and one task. -/
def c1Agent : Agent := { id := "a1", name := "A1" }

/-- C1 scenario task. -/
def c1Task : Task := { id := "t1", content := "" }

/-- C1 initial distributor: the agent registered, the task enqueued. -/
def c1Dist0 : DistState := add_task c1Task (register_agent c1Agent ({} : DistState))

/-- C1 failed `TaskResult` reported by the agent. -/
def c1FailResult : TaskResult := { task_id := "t1", agent_id := "a1", success := false }

/-- One C1 round: an assignment pass followed by a failure report (the
agent itself is read-only to the distributor, as in the source). -/
def c1FailCycle (s : DistState) : Option DistState :=
  handle_task_result c1FailResult (distribute_tasks s).1

/-- The distributor after four consecutive assign-then-fail rounds. -/
def c1Final : Option DistState :=
  (((c1FailCycle c1Dist0).bind c1FailCycle).bind c1FailCycle).bind c1FailCycle

/-- C2 scenario: one agent with concurrency limit 1. -/
def c2Agent : Agent := { id := "a1", name := "A1" }

/-- C2 scenario: first task. -/
def c2T1 : Task := { id := "t1", content := "" }

/-- C2 scenario: second task. -/
def c2T2 : Task := { id := "t2", content := "" }

/-- C2 initial distributor: both tasks pending for the lone agent. -/
def c2Dist0 : DistState :=
  add_task c2T2 (add_task c2T1 (register_agent c2Agent ({} : DistState)))

/-- C4 scenario: the message already occupying the one-slot mailbox. -/
def c4Occupied : Message :=
  { id := "m0", sender_id := "s", receiver_id := some "r",
    message_type := "x", content := "" }

/-- C4 scenario: the message whose delivery hits the full mailbox. -/
def c4Incoming : Message :=
  { id := "m1", sender_id := "s", receiver_id := some "r",
    message_type := "x", content := "" }

/-- C4 scenario: a running bus whose mailbox for "r" has capacity 1 and
is already full. -/
def c4Bus : BusState :=
  { max_queue_size := 1, running := true,
    message_queues := [("r", [c4Occupied])] }

/-- C5 scenario: the agent being added. -/
def c5Agent : Agent := { id := "a1", name := "A1" }

/-- C5 scenario: a fresh system (empty manager, empty aggregator). -/
def c5Sys : System := {}

/-- C6 counterexample votes: one legitimate vote whose confidence is 0,
giving `total_weight = 0`. -/
def c6Votes : List Vote := [{ agent_id := "v1", option := "x", confidence := 0 }]

/-- C6 witness votes: two unit-confidence votes. -/
def c6wVotes : List Vote :=
  [{ agent_id := "v1", option := "x" }, { agent_id := "v2", option := "y" }]

/-- C7 witness bus: three registered agents, all mailboxes empty. -/
def c7wBus : BusState :=
  { running := true, max_queue_size := 10,
    message_queues := [("a", []), ("b", []), ("c", [])] }

/-- C7 witness broadcast message from "a". -/
def c7wMsg : Message :=
  { id := "bm", sender_id := "a", receiver_id := none,
    message_type := "announce", content := "hello" }

/-- C8 counterexample votes: two zero-confidence votes, so the weighted
stage divides by zero before consensus can be judged. -/
def c8Votes : List Vote :=
  [{ agent_id := "w1", option := "y", confidence := 0 },
   { agent_id := "w2", option := "z", confidence := 0 }]

/-- C8 witness votes: unanimous unit-confidence votes (weighted
confidence 1 ≥ threshold). -/
def c8wVotes : List Vote :=
  [{ agent_id := "w1", option := "y" }, { agent_id := "w2", option := "y" }]

/-- C9 witness agent. -/
def c9Agent : Agent := { id := "a9", name := "A9" }

/-- C9 witness task (no capability requirements). -/
def c9Task : Task := { id := "t9", content := "" }

/-! ## Helper lemmas -/

theorem valsum_nil : valsum [] = 0 := rfl

theorem valsum_cons (p : String × ℚ) (l : List (String × ℚ)) :
    valsum (p :: l) = p.2 + valsum l := by
  simp [valsum]

theorem addTo_valsum (l : List (String × ℚ)) (k : String) (w : ℚ) :
    valsum (addTo l k w) = valsum l + w := by
  induction l with
  | nil => simp [addTo, valsum]
  | cons p t ih =>
    by_cases h : p.1 = k
    · simp [addTo, h, valsum_cons]
      ring
    · simp [addTo, h, valsum_cons, ih]
      ring

theorem addTo_nonneg {l : List (String × ℚ)} {k : String} {w : ℚ}
    (hl : ∀ p ∈ l, 0 ≤ p.2) (hw : 0 ≤ w) :
    ∀ p ∈ addTo l k w, 0 ≤ p.2 := by
  induction l with
  | nil =>
    intro p hp
    simp [addTo] at hp
    simp [hp, hw]
  | cons q t ih =>
    intro p hp
    by_cases h : q.1 = k
    · simp [addTo, h] at hp
      rcases hp with hp | hp
      · have hq := hl q (by simp)
        have : (0 : ℚ) ≤ q.2 + w := by linarith
        simp [hp]
        exact this
      · exact hl p (by simp [hp])
    · simp [addTo, h] at hp
      rcases hp with hp | hp
      · exact hl p (by simp [hp])
      · exact ih (fun r hr => hl r (by simp [hr])) p hp

theorem addTo_ne_nil (l : List (String × ℚ)) (k : String) (w : ℚ) :
    addTo l k w ≠ [] := by
  cases l with
  | nil => simp [addTo]
  | cons p t =>
    by_cases h : p.1 = k <;> simp [addTo, h]

theorem setKey_ne_nil {α : Type} (l : List (String × α)) (k : String) (v : α) :
    setKey l k v ≠ [] := by
  cases l with
  | nil => simp [setKey]
  | cons p t =>
    by_cases h : p.1 = k <;> simp [setKey, h]

theorem mem_le_valsum {l : List (String × ℚ)}
    (hl : ∀ p ∈ l, 0 ≤ p.2) {p : String × ℚ} (hp : p ∈ l) :
    p.2 ≤ valsum l := by
  induction l with
  | nil => cases hp
  | cons q t ih =>
    rcases List.mem_cons.mp hp with h | h
    · subst h
      have : 0 ≤ valsum t := by
        have : ∀ r ∈ t, 0 ≤ r.2 := fun r hr => hl r (by simp [hr])
        simp only [valsum]
        apply List.sum_nonneg
        intro x hx
        rcases List.mem_map.mp hx with ⟨r, hr, rfl⟩
        exact this r hr
      rw [valsum_cons]
      linarith
    · have hq := hl q (by simp)
      have := ih (fun r hr => hl r (by simp [hr])) h
      rw [valsum_cons]
      linarith

theorem foldl_best_mem (l : List (String × ℚ)) (init : String × ℚ) :
    l.foldl (fun best x => if best.2 < x.2 then x else best) init ∈ init :: l := by
  induction l generalizing init with
  | nil => simp
  | cons q s ih =>
    simp only [List.foldl_cons]
    rcases List.mem_cons.mp (ih (if init.2 < q.2 then q else init)) with h | h
    · by_cases hq : init.2 < q.2
      · simp only [if_pos hq] at h ⊢
        simp [h]
      · simp only [if_neg hq] at h ⊢
        simp [h]
    · simp [List.mem_cons.mpr (Or.inr (List.mem_cons.mpr (Or.inr h)))]

theorem argmaxSnd_mem {l : List (String × ℚ)} {w : String × ℚ}
    (h : argmaxSnd l = some w) : w ∈ l := by
  cases l with
  | nil => simp [argmaxSnd] at h
  | cons p t =>
    simp only [argmaxSnd, Option.some.injEq] at h
    subst h
    exact foldl_best_mem t p


theorem qlookup_setKey_self {α : Type} (l : List (String × α)) (k : String) (v : α) :
    qlookup k (setKey l k v) = some v := by
  induction l with
  | nil => simp [setKey, qlookup]
  | cons p t ih =>
    by_cases h : p.1 = k
    · simp [setKey, h, qlookup]
    · simp [setKey, h, qlookup, ih]

theorem qlookup_setKey_ne {α : Type} {l : List (String × α)} {k k' : String}
    (h : k' ≠ k) (v : α) : qlookup k' (setKey l k v) = qlookup k' l := by
  induction l with
  | nil =>
    have hne : ¬ (k = k') := fun hh => h hh.symm
    simp [setKey, qlookup, hne]
  | cons p t ih =>
    by_cases hp : p.1 = k
    · subst hp
      have hne : ¬ (p.1 = k') := fun hh => h hh.symm
      simp [setKey, qlookup, hne]
    · simp only [setKey, if_neg hp, qlookup]
      by_cases hk : p.1 = k'
      · simp [hk]
      · simp [hk, ih]

theorem qlookup_mem {α : Type} {l : List (String × α)} {k : String} {v : α}
    (h : qlookup k l = some v) : (k, v) ∈ l := by
  induction l with
  | nil => simp [qlookup] at h
  | cons p t ih =>
    by_cases hp : p.1 = k
    · simp only [qlookup, if_pos hp, Option.some.injEq] at h
      have hpkv : p = (k, v) := by
        cases p with
        | mk a b => simp_all
      simp [hpkv]
    · simp only [qlookup, if_neg hp] at h
      exact List.mem_cons.mpr (Or.inr (ih h))

theorem qlookup_isSome_append_self {α : Type} (l : List (String × α))
    (k : String) (v : α) : (qlookup k (l ++ [(k, v)])).isSome := by
  induction l with
  | nil => simp [qlookup]
  | cons p t ih =>
    by_cases hp : p.1 = k
    · simp [qlookup, hp]
    · simpa [qlookup, hp] using ih


/-! ## Claim theorems -/

/-- C1 (code-bug evidence).  The claim says a task's attempt count never
exceeds `max_attempts` and that after `max_attempts` failures the task
is terminally FAILED and never requeued.  In the code,
`distribute_tasks` overwrites `assignments[task.id]` with a *fresh*
`TaskAssignment` (attempts = 0) on every reassignment, so the counter
resets each retry: after four consecutive assign-then-fail rounds the
stored assignment still shows `attempts = 1`, its status is PENDING
(requeued), the task sits in the backlog again, and the agent has
already recorded four failures — the task is retried forever instead of
failing terminally after three attempts. -/
theorem c1_attempts_reset_on_reassignment :
    (c1Final.map fun s =>
      ((qlookup "t1" s.assignments).map fun a => (a.status, a.attempts, a.max_attempts),
       s.task_queue.length,
       (qlookup "a1" s.agent_performance).map AgentPerformance.failed_tasks))
    = some (some (TaskStatus.pending, 1, 3), 1, some 4) := by rfl

/-- C2 (code-bug evidence).  The claim says the scheduler-tracked
`current_load` never exceeds `max_concurrent_tasks`.  Eligibility is
checked against `agent.current_tasks`, which only changes when the
agent later *executes*, so a single `distribute_tasks` pass assigns
both pending tasks to the one agent whose declared limit is 1, driving
its tracked load to 2. -/
theorem c2_load_exceeds_limit :
    ((qlookup "a1" (distribute_tasks c2Dist0).1.agent_performance).map
      AgentPerformance.current_load = some 2) ∧
    c2Agent.max_concurrent_tasks = 1 := by
  exact ⟨rfl, rfl⟩

/-- C4 (code-bug evidence).  The claim says delivery to a full mailbox
drops the message, bumps the dropped counter and never blocks the
sender.  The source awaits `queue.put(message)`, which *suspends* the
sender when the queue is full (`asyncio.QueueFull` is only raised by
`put_nowait`), so on a full one-slot mailbox the delivery blocks —
modelled as `none` — and the drop counter is never touched. -/
theorem c4_full_mailbox_blocks_sender :
    MessageBus.queueFull c4Bus [c4Occupied] = true ∧
    MessageBus.deliver_to_agent c4Bus "r" c4Incoming = none := by
  exact ⟨rfl, rfl⟩

/-- C5 (counterexample).  The claim says a successful `add_agent`
registers the worker in all three subsystems, including the Aggregator
(collective intelligence).  `SwarmManager` holds no
`CollectiveIntelligence` member at all: adding an agent to a fresh
system succeeds, yet the aggregator's registration tables remain
empty. -/
theorem c5_aggregator_never_registered :
    (add_agent c5Agent c5Sys).1 = true ∧
    (add_agent c5Agent c5Sys).2.aggregator.agents = [] ∧
    (add_agent c5Agent c5Sys).2.aggregator.agent_reputation = [] := by
  exact ⟨rfl, rfl, rfl⟩

/-- C5 (amended).  `add_agent` succeeds exactly when the pool has spare
capacity and the id is fresh; on success the worker is registered with
the Channel (a mailbox exists) and the Scheduler (a performance record
exists) and recorded by the manager, while the Aggregator is left
untouched; on failure the whole system is unchanged (so the worker is
registered nowhere). -/
theorem c5_add_agent_two_subsystems (sys : System) (a : Agent) :
    ((add_agent a sys).1 = true ↔
      sys.manager.agents.length < sys.manager.config.max_agents ∧
      qlookup a.id sys.manager.agents = none) ∧
    ((add_agent a sys).1 = true →
      (qlookup a.id (add_agent a sys).2.manager.message_bus.message_queues).isSome = true ∧
      (qlookup a.id (add_agent a sys).2.manager.task_distributor.agent_performance).isSome = true ∧
      (qlookup a.id (add_agent a sys).2.manager.agents).isSome = true ∧
      (add_agent a sys).2.aggregator = sys.aggregator) ∧
    ((add_agent a sys).1 = false → (add_agent a sys).2 = sys) := by
  by_cases h1 : sys.manager.config.max_agents ≤ sys.manager.agents.length
  · refine ⟨?_, ?_, ?_⟩
    · simp only [add_agent, if_pos h1]
      constructor
      · intro hh
        exact absurd hh (by simp)
      · rintro ⟨hlt, -⟩
        exact absurd hlt (by omega)
    · intro hh
      simp [add_agent, if_pos h1] at hh
    · intro _
      simp [add_agent, if_pos h1]
  · by_cases h2 : (qlookup a.id sys.manager.agents).isSome
    · refine ⟨?_, ?_, ?_⟩
      · simp only [add_agent, if_neg h1, if_pos h2]
        constructor
        · intro hh
          exact absurd hh (by simp)
        · rintro ⟨-, hnone⟩
          rw [hnone] at h2
          simp at h2
      · intro hh
        simp [add_agent, if_neg h1, if_pos h2] at hh
      · intro _
        simp [add_agent, if_neg h1, if_pos h2]
    · refine ⟨?_, ?_, ?_⟩
      · simp only [add_agent, if_neg h1, if_neg h2]
        constructor
        · intro _
          exact ⟨by omega, by simpa [Option.isNone_iff_eq_none] using h2⟩
        · intro _
          trivial
      · intro _
        refine ⟨?_, ?_, ?_, ?_⟩
        · simp only [add_agent, if_neg h1, if_neg h2]
          unfold MessageBus.register_agent
          by_cases h3 : (qlookup a.id sys.manager.message_bus.message_queues).isSome
          · simpa [h3] using h3
          · simp [h3, qlookup_isSome_append_self]
        · simp [add_agent, if_neg h1, if_neg h2, register_agent, qlookup_setKey_self]
        · simp [add_agent, if_neg h1, if_neg h2, qlookup_setKey_self]
        · simp [add_agent, if_neg h1, if_neg h2]
      · intro hh
        simp [add_agent, if_neg h1, if_neg h2] at hh

/-- C5 (amended, witness): adding a fresh agent to an empty system
registers it with the Channel and the Scheduler and leaves the
aggregator untouched. -/
theorem c5_add_agent_two_subsystems_witness :
    (qlookup "a1" (add_agent c5Agent c5Sys).2.manager.message_bus.message_queues).isSome = true ∧
    (qlookup "a1" (add_agent c5Agent c5Sys).2.manager.task_distributor.agent_performance).isSome = true ∧
    (qlookup "a1" (add_agent c5Agent c5Sys).2.manager.agents).isSome = true ∧
    (add_agent c5Agent c5Sys).2.aggregator = c5Sys.aggregator :=
  (c5_add_agent_two_subsystems c5Sys c5Agent).2.1 (by rfl)

/-- C6 (counterexample).  The claim says every non-empty vote list with
listed options gives majority, weighted and Borda decisions without
raising or dividing by zero.  A single legitimate vote with confidence
0 (confidence lies in the closed interval from 0 to 1) makes
`total_weight` zero, so the weighted normalisation loop divides by
zero (modelled as `none`). -/
theorem c6_weighted_zero_weight_raises :
    CollectiveIntelligence.weighted_voting [] c6Votes ["x"] = none ∧
    c6Votes ≠ [] ∧ (∀ v ∈ c6Votes, v.option ∈ ["x"]) ∧
    (∀ v ∈ c6Votes, 0 ≤ v.confidence ∧ v.confidence ≤ 1) := by
  refine ⟨?_, by simp [c6Votes], by decide, by decide⟩
  simp [CollectiveIntelligence.weighted_voting, CollectiveIntelligence.weighted_scores_raw,
    CollectiveIntelligence.total_weight, CollectiveIntelligence.voteWeight,
    CollectiveIntelligence.reputationOf, c6Votes, addTo, qlookup]

/-- C8 (counterexample).  The claim says consensus voting returns a
decision for every non-empty vote set.  With all-zero vote confidences
the weighted stage it relies on raises `ZeroDivisionError` before any
threshold comparison, so consensus voting raises as well instead of
returning a null decision. -/
theorem c8_consensus_zero_weight_raises :
    CollectiveIntelligence.consensus_voting [] c8Votes ["y", "z"] = none ∧
    c8Votes ≠ [] := by
  have hW : CollectiveIntelligence.weighted_voting [] c8Votes ["y", "z"] = none := by
    simp [CollectiveIntelligence.weighted_voting, CollectiveIntelligence.weighted_scores_raw,
      CollectiveIntelligence.total_weight, CollectiveIntelligence.voteWeight,
      CollectiveIntelligence.reputationOf, c8Votes, addTo, qlookup]
  refine ⟨by simp [CollectiveIntelligence.consensus_voting, hW], by simp [c8Votes]⟩

/-- C9 (confirmed).  Whenever `execute_task` actually starts (the
`can_handle_task` gate passes), it terminates with the agent back in
IDLE and the task id no longer in `current_tasks`, on the success,
timeout and internal-exception paths alike, and never leaves the agent
in ERROR. -/
theorem c9_execute_task_restores_idle (a : Agent) (t : Task) (o : ExecOutcome)
    (h : can_handle_task a t = true) :
    (execute_task a t o).1.state = AgentState.idle ∧
    (∀ p ∈ (execute_task a t o).1.current_tasks, p.1 ≠ t.id) ∧
    (execute_task a t o).1.state ≠ AgentState.error := by
  cases o <;> simp [execute_task, h, List.mem_filter]

/-- C9 (witness): a default agent executing a requirement-free task. -/
theorem c9_execute_task_restores_idle_witness :
    can_handle_task c9Agent c9Task = true ∧
    ((execute_task c9Agent c9Task (.ok "r" 1)).1.state = AgentState.idle ∧
     (∀ p ∈ (execute_task c9Agent c9Task (.ok "r" 1)).1.current_tasks, p.1 ≠ c9Task.id) ∧
     (execute_task c9Agent c9Task (.ok "r" 1)).1.state ≠ AgentState.error) :=
  ⟨by rfl, c9_execute_task_restores_idle c9Agent c9Task (.ok "r" 1) (by rfl)⟩

/-- C10 (confirmed).  While the `send_request_response` wait loop polls
the requester's mailbox, every message it consumes that is not the
matching correlated response is discarded and never requeued: the loop
splits the mailbox into a discarded prefix of non-matching messages,
optionally the matching response (returned), and an untouched suffix
that becomes the new mailbox — so unrelated messages received during
the wait are lost. -/
theorem c10_poll_discards_nonmatching (corrId msgType : String) (now : ℚ) :
    ∀ (fuel : Nat) (mb : List Message), ∃ pre rest,
      (∀ x ∈ pre, MessageBus.responseMatches corrId msgType now x = false) ∧
      (MessageBus.pollForResponse corrId msgType now fuel mb).2 = rest ∧
      ((mb = pre ++ rest ∧
          (MessageBus.pollForResponse corrId msgType now fuel mb).1 = none) ∨
       (∃ m, MessageBus.responseMatches corrId msgType now m = true ∧
          mb = pre ++ m :: rest ∧
          (MessageBus.pollForResponse corrId msgType now fuel mb).1 = some m.content)) := by
  intro fuel
  induction fuel with
  | zero =>
    intro mb
    exact ⟨[], mb, by simp, by simp [MessageBus.pollForResponse],
      Or.inl ⟨by simp, by simp [MessageBus.pollForResponse]⟩⟩
  | succ n ih =>
    intro mb
    cases mb with
    | nil =>
      obtain ⟨pre, rest, h1, h2, h3⟩ := ih []
      exact ⟨pre, rest, h1, by simpa [MessageBus.pollForResponse] using h2,
        by simpa [MessageBus.pollForResponse] using h3⟩
    | cons m rest0 =>
      by_cases hm : MessageBus.responseMatches corrId msgType now m = true
      · exact ⟨[], rest0, by simp, by simp [MessageBus.pollForResponse, hm],
          Or.inr ⟨m, hm, by simp, by simp [MessageBus.pollForResponse, hm]⟩⟩
      · obtain ⟨pre, rest, h1, h2, h3⟩ := ih rest0
        refine ⟨m :: pre, rest, ?_, ?_, ?_⟩
        · intro x hx
          rcases List.mem_cons.mp hx with rfl | hx
          · simpa using hm
          · exact h1 x hx
        · simpa [MessageBus.pollForResponse, hm] using h2
        · rcases h3 with ⟨hmb, hres⟩ | ⟨mm, hmm, hmb, hres⟩
          · exact Or.inl ⟨by simp [hmb],
              by simpa [MessageBus.pollForResponse, hm] using hres⟩
          · exact Or.inr ⟨mm, hmm, by simp [hmb],
              by simpa [MessageBus.pollForResponse, hm] using hres⟩


/-! ## Voting lemmas (for C6 and C8) -/

theorem valsum_nonneg {l : List (String × ℚ)} (hl : ∀ p ∈ l, 0 ≤ p.2) :
    0 ≤ valsum l := by
  simp only [valsum]
  apply List.sum_nonneg
  intro x hx
  rcases List.mem_map.mp hx with ⟨r, hr, rfl⟩
  exact hl r hr

theorem argmaxSnd_isSome {l : List (String × ℚ)} (h : l ≠ []) :
    ∃ w, argmaxSnd l = some w := by
  cases l with
  | nil => exact absurd rfl h
  | cons p t => exact ⟨_, rfl⟩

theorem mem_setKey {α : Type} {l : List (String × α)} {k : String} {v : α} :
    ∀ p ∈ setKey l k v, p ∈ l ∨ p = (k, v) := by
  induction l with
  | nil =>
    intro p hp
    simp [setKey] at hp
    exact Or.inr hp
  | cons q t ih =>
    intro p hp
    by_cases h : q.1 = k
    · simp only [setKey, if_pos h] at hp
      rcases List.mem_cons.mp hp with hq | hq
      · right
        rw [hq, h]
      · exact Or.inl (List.mem_cons.mpr (Or.inr hq))
    · simp only [setKey, if_neg h] at hp
      rcases List.mem_cons.mp hp with hq | hq
      · exact Or.inl (List.mem_cons.mpr (Or.inl hq))
      · rcases ih p hq with hin | hkv
        · exact Or.inl (List.mem_cons.mpr (Or.inr hin))
        · exact Or.inr hkv

/-- Any fold step that never empties a non-empty accumulator keeps the
fold non-empty. -/
theorem foldl_preserve_ne_nil {β : Type}
    (f : List (String × ℚ) → β → List (String × ℚ))
    (hf : ∀ acc v, acc ≠ [] → f acc v ≠ []) :
    ∀ (xs : List β) (acc : List (String × ℚ)), acc ≠ [] → xs.foldl f acc ≠ [] := by
  intro xs
  induction xs with
  | nil => intro acc h; simpa using h
  | cons x t ih => intro acc h; exact ih _ (hf acc x h)

namespace CollectiveIntelligence

theorem reputationOf_nonneg {rep : List (String × ℚ)} (hrep : ∀ p ∈ rep, 0 ≤ p.2)
    (aid : String) : 0 ≤ reputationOf rep aid := by
  unfold reputationOf
  cases hq : qlookup aid rep with
  | none => simp
  | some v => simpa using hrep (aid, v) (qlookup_mem hq)

theorem foldl_addTo_valsum (w : Vote → ℚ) :
    ∀ (votes : List Vote) (acc : List (String × ℚ)),
      valsum (votes.foldl (fun acc v => addTo acc v.option (w v)) acc)
        = valsum acc + (votes.map w).sum := by
  intro votes
  induction votes with
  | nil => intro acc; simp
  | cons v vs ih =>
    intro acc
    simp only [List.foldl_cons, List.map_cons, List.sum_cons]
    rw [ih, addTo_valsum]
    ring

theorem foldl_addTo_nonneg (w : Vote → ℚ) :
    ∀ (votes : List Vote) (acc : List (String × ℚ)),
      (∀ v ∈ votes, 0 ≤ w v) → (∀ p ∈ acc, 0 ≤ p.2) →
      ∀ p ∈ votes.foldl (fun acc v => addTo acc v.option (w v)) acc, 0 ≤ p.2 := by
  intro votes
  induction votes with
  | nil => intro acc _ hacc; simpa using hacc
  | cons v vs ih =>
    intro acc hw hacc
    exact ih _ (fun x hx => hw x (by simp [hx]))
      (addTo_nonneg hacc (hw v (by simp)))

theorem foldl_addTo_ne_nil (w : Vote → ℚ) {votes : List Vote}
    (hne : votes ≠ []) :
    votes.foldl (fun acc v => addTo acc v.option (w v)) [] ≠ [] := by
  cases votes with
  | nil => exact absurd rfl hne
  | cons v vs =>
    simp only [List.foldl_cons]
    exact foldl_preserve_ne_nil _ (fun acc x _ => addTo_ne_nil acc x.option (w x))
      vs _ (addTo_ne_nil [] v.option (w v))

theorem vote_counts_valsum (votes : List Vote) :
    valsum (vote_counts votes) = (votes.length : ℚ) := by
  unfold vote_counts
  rw [foldl_addTo_valsum (fun _ => 1) votes []]
  simp [valsum, List.map_const']

theorem vote_counts_nonneg (votes : List Vote) :
    ∀ p ∈ vote_counts votes, 0 ≤ p.2 :=
  foldl_addTo_nonneg (fun _ => 1) votes [] (by simp) (by simp)

theorem weighted_scores_raw_valsum (rep : List (String × ℚ)) (votes : List Vote) :
    valsum (weighted_scores_raw rep votes) = total_weight rep votes := by
  unfold weighted_scores_raw total_weight
  rw [foldl_addTo_valsum (voteWeight rep) votes []]
  simp [valsum]

theorem weighted_scores_raw_nonneg {rep : List (String × ℚ)} {votes : List Vote}
    (hconf : ∀ v ∈ votes, 0 ≤ v.confidence) (hrep : ∀ p ∈ rep, 0 ≤ p.2) :
    ∀ p ∈ weighted_scores_raw rep votes, 0 ≤ p.2 :=
  foldl_addTo_nonneg (voteWeight rep) votes []
    (fun v hv => mul_nonneg (hconf v hv) (reputationOf_nonneg hrep v.agent_id))
    (by simp)

/-- The shape of a successful weighted vote: present scores, non-zero
total, and the argmax of the normalised score table. -/
theorem weighted_voting_eq {rep : List (String × ℚ)} {votes : List Vote}
    (options : List String) (hne : votes ≠ [])
    (hT : total_weight rep votes ≠ 0) :
    ∃ w, w ∈ (weighted_scores_raw rep votes).map
        (fun p => (p.1, p.2 / total_weight rep votes)) ∧
      weighted_voting rep votes options =
        some { decision := some w.1, confidence := w.2, votes := votes,
               method_used := "weighted",
               metadata := .weightedScores ((weighted_scores_raw rep votes).map
                 (fun p => (p.1, p.2 / total_weight rep votes))) } := by
  have hraw : weighted_scores_raw rep votes ≠ [] := foldl_addTo_ne_nil _ hne
  have hscores : (weighted_scores_raw rep votes).map
      (fun p => (p.1, p.2 / total_weight rep votes)) ≠ [] := by
    simpa using hraw
  obtain ⟨w, hw⟩ := argmaxSnd_isSome hscores
  refine ⟨w, argmaxSnd_mem hw, ?_⟩
  unfold weighted_voting
  rw [if_neg (by simpa [List.isEmpty_iff] using hraw), if_neg hT]
  simp only [hw]

end CollectiveIntelligence

/-- C6 (amended).  For every non-empty vote list whose confidences are
non-negative and whose options come from the given list, with
non-negative reputations: majority and Borda-count voting always
return a decision with confidence in the unit interval, and weighted
voting does too provided the total vote weight is positive (the
proviso only its division requires). -/
theorem c6_voting_confidence_in_unit_interval
    (rep : List (String × ℚ)) (votes : List Vote) (options : List String)
    (hne : votes ≠ [])
    (hconf : ∀ v ∈ votes, 0 ≤ v.confidence)
    (hopt : ∀ v ∈ votes, v.option ∈ options)
    (hrep : ∀ p ∈ rep, 0 ≤ p.2) :
    (∃ d, CollectiveIntelligence.majority_voting votes options = some d ∧
       0 ≤ d.confidence ∧ d.confidence ≤ 1) ∧
    (0 < CollectiveIntelligence.total_weight rep votes →
      ∃ d, CollectiveIntelligence.weighted_voting rep votes options = some d ∧
        0 ≤ d.confidence ∧ d.confidence ≤ 1) ∧
    (∃ d, CollectiveIntelligence.borda_count_voting rep votes options = some d ∧
       0 ≤ d.confidence ∧ d.confidence ≤ 1) := by
  have hlen : (0 : ℚ) < (votes.length : ℚ) := by
    have := List.length_pos.mpr hne
    exact_mod_cast this
  refine ⟨?_, ?_, ?_⟩
  · -- majority
    have hcne : CollectiveIntelligence.vote_counts votes ≠ [] :=
      CollectiveIntelligence.foldl_addTo_ne_nil _ hne
    obtain ⟨w, hw⟩ := argmaxSnd_isSome hcne
    have hmem := argmaxSnd_mem hw
    have h0 := CollectiveIntelligence.vote_counts_nonneg votes w hmem
    have h1 : w.2 ≤ (votes.length : ℚ) := by
      have := mem_le_valsum (CollectiveIntelligence.vote_counts_nonneg votes) hmem
      rwa [CollectiveIntelligence.vote_counts_valsum] at this
    have heq : CollectiveIntelligence.majority_voting votes options =
        some { decision := some w.1, confidence := w.2 / (votes.length : ℚ),
               votes := votes, method_used := "majority",
               metadata := .voteCounts (CollectiveIntelligence.vote_counts votes) } := by
      unfold CollectiveIntelligence.majority_voting
      rw [hw]
    refine ⟨_, heq, ?_, ?_⟩
    · exact div_nonneg h0 (le_of_lt hlen)
    · exact (div_le_one hlen).mpr h1
  · -- weighted
    intro hT
    obtain ⟨w, hmem, heq⟩ :=
      CollectiveIntelligence.weighted_voting_eq options hne (ne_of_gt hT)
    rcases List.mem_map.mp hmem with ⟨p, hp, rfl⟩
    have h0 := CollectiveIntelligence.weighted_scores_raw_nonneg hconf hrep p hp
    have h1 : p.2 ≤ CollectiveIntelligence.total_weight rep votes := by
      have := mem_le_valsum (CollectiveIntelligence.weighted_scores_raw_nonneg hconf hrep) hp
      rwa [CollectiveIntelligence.weighted_scores_raw_valsum] at this
    refine ⟨_, heq, ?_, ?_⟩
    · exact div_nonneg h0 (le_of_lt hT)
    · exact (div_le_one hT).mpr h1
  · -- borda
    have hoptne : options ≠ [] := by
      cases votes with
      | nil => exact absurd rfl hne
      | cons v vs =>
        intro hO
        have := hopt v (by simp)
        rw [hO] at this
        simp at this
    have hpts : (0 : ℚ) ≤ (options.length : ℚ) - 1 := by
      have : 1 ≤ options.length := List.length_pos.mpr hoptne
      have : (1 : ℚ) ≤ (options.length : ℚ) := by exact_mod_cast this
      linarith
    have hinit_ne : CollectiveIntelligence.borda_init options ≠ [] := by
      cases options with
      | nil => exact absurd rfl hoptne
      | cons o os =>
        unfold CollectiveIntelligence.borda_init
        simp only [List.foldl_cons]
        exact foldl_preserve_ne_nil _ (fun acc x _ => setKey_ne_nil acc x 0) os _
          (setKey_ne_nil [] o 0)
    have hinit_zero : ∀ p ∈ CollectiveIntelligence.borda_init options, 0 ≤ p.2 := by
      unfold CollectiveIntelligence.borda_init
      have hgen : ∀ (os : List String) (acc : List (String × ℚ)),
          (∀ p ∈ acc, 0 ≤ p.2) →
          ∀ p ∈ os.foldl (fun acc o => setKey acc o 0) acc, 0 ≤ p.2 := by
        intro os
        induction os with
        | nil => intro acc hacc; simpa using hacc
        | cons o t ih =>
          intro acc hacc
          refine ih _ ?_
          intro p hp
          rcases mem_setKey p hp with h | h
          · exact hacc p h
          · simp [h]
      exact hgen options [] (by simp)
    have hscore_nonneg : ∀ p ∈ CollectiveIntelligence.borda_scores rep votes options,
        0 ≤ p.2 := by
      unfold CollectiveIntelligence.borda_scores
      have hgen : ∀ (vs : List Vote) (acc : List (String × ℚ)),
          (∀ v ∈ vs, 0 ≤ v.confidence) → (∀ p ∈ acc, 0 ≤ p.2) →
          ∀ p ∈ vs.foldl (fun acc v =>
              if (qlookup v.option acc).isSome then
                addTo acc v.option
                  (((options.length : ℚ) - 1) * v.confidence *
                    CollectiveIntelligence.reputationOf rep v.agent_id)
              else acc) acc, 0 ≤ p.2 := by
        intro vs
        induction vs with
        | nil => intro acc _ hacc; simpa using hacc
        | cons v t ih =>
          intro acc hc hacc
          refine ih _ (fun x hx => hc x (by simp [hx])) ?_
          by_cases hq : (qlookup v.option acc).isSome
          · simp only [if_pos hq]
            refine addTo_nonneg hacc ?_
            have h1 : 0 ≤ ((options.length : ℚ) - 1) * v.confidence :=
              mul_nonneg hpts (hc v (by simp))
            exact mul_nonneg h1 (CollectiveIntelligence.reputationOf_nonneg hrep _)
          · simpa [if_neg hq] using hacc
      exact hgen votes _ hconf hinit_zero
    have hscores_ne : CollectiveIntelligence.borda_scores rep votes options ≠ [] := by
      unfold CollectiveIntelligence.borda_scores
      refine foldl_preserve_ne_nil _ ?_ votes _ hinit_ne
      intro acc v hacc
      by_cases hq : (qlookup v.option acc).isSome
      · simp only [if_pos hq]
        exact addTo_ne_nil _ _ _
      · simpa [if_neg hq] using hacc
    by_cases htot : 0 < valsum (CollectiveIntelligence.borda_scores rep votes options)
    · have hfineq : CollectiveIntelligence.borda_final rep votes options =
          (CollectiveIntelligence.borda_scores rep votes options).map
            (fun p => (p.1,
              p.2 / valsum (CollectiveIntelligence.borda_scores rep votes options))) := by
        unfold CollectiveIntelligence.borda_final
        rw [if_pos htot]
      have hfinal_ne : CollectiveIntelligence.borda_final rep votes options ≠ [] := by
        rw [hfineq]
        simpa using hscores_ne
      obtain ⟨w, hw⟩ := argmaxSnd_isSome hfinal_ne
      have heq : CollectiveIntelligence.borda_count_voting rep votes options =
          some { decision := some w.1, confidence := w.2, votes := votes,
                 method_used := "borda_count",
                 metadata := .bordaScores
                   (CollectiveIntelligence.borda_final rep votes options) } := by
        unfold CollectiveIntelligence.borda_count_voting
        rw [hw]
      have hmem := argmaxSnd_mem hw
      rw [hfineq] at hmem
      rcases List.mem_map.mp hmem with ⟨p, hp, hweq⟩
      have h0 := hscore_nonneg p hp
      have h1 := mem_le_valsum hscore_nonneg hp
      refine ⟨_, heq, ?_, ?_⟩
      · rw [← hweq]
        exact div_nonneg h0 (le_of_lt htot)
      · rw [← hweq]
        exact (div_le_one htot).mpr h1
    · have hfineq : CollectiveIntelligence.borda_final rep votes options =
          CollectiveIntelligence.borda_scores rep votes options := by
        unfold CollectiveIntelligence.borda_final
        rw [if_neg htot]
      obtain ⟨w, hw⟩ := argmaxSnd_isSome (hfineq ▸ hscores_ne)
      have heq : CollectiveIntelligence.borda_count_voting rep votes options =
          some { decision := some w.1, confidence := w.2, votes := votes,
                 method_used := "borda_count",
                 metadata := .bordaScores
                   (CollectiveIntelligence.borda_final rep votes options) } := by
        unfold CollectiveIntelligence.borda_count_voting
        rw [hw]
      have hmem := argmaxSnd_mem hw
      rw [hfineq] at hmem
      have h0 := hscore_nonneg w hmem
      have h1 := mem_le_valsum hscore_nonneg hmem
      have hz : w.2 = 0 := le_antisymm (by linarith [not_lt.mp htot]) h0
      refine ⟨_, heq, ?_, ?_⟩
      · simp [hz]
      · simp [hz]

/-- C6 (amended, witness): two unit-confidence votes over two listed
options, empty reputation table; the weighted proviso is discharged
concretely (total weight 2). -/
theorem c6_voting_confidence_in_unit_interval_witness :
    c6wVotes ≠ [] ∧ 0 < CollectiveIntelligence.total_weight [] c6wVotes ∧
    ((∃ d, CollectiveIntelligence.majority_voting c6wVotes ["x", "y"] = some d ∧
       0 ≤ d.confidence ∧ d.confidence ≤ 1) ∧
     (∃ d, CollectiveIntelligence.weighted_voting [] c6wVotes ["x", "y"] = some d ∧
       0 ≤ d.confidence ∧ d.confidence ≤ 1) ∧
     (∃ d, CollectiveIntelligence.borda_count_voting [] c6wVotes ["x", "y"] = some d ∧
       0 ≤ d.confidence ∧ d.confidence ≤ 1)) := by
  have hT : 0 < CollectiveIntelligence.total_weight [] c6wVotes := by
    norm_num [CollectiveIntelligence.total_weight, c6wVotes,
      CollectiveIntelligence.voteWeight, CollectiveIntelligence.reputationOf, qlookup]
  have h := c6_voting_confidence_in_unit_interval [] c6wVotes ["x", "y"]
    (by simp [c6wVotes]) (by decide) (by decide) (by simp)
  exact ⟨by simp [c6wVotes], hT, h.1, h.2.1 hT, h.2.2⟩

/-- C8 (amended).  Whenever the weighted stage succeeds (non-empty
votes, non-zero total weight), consensus voting returns exactly the
weighted result relabelled "consensus" when its confidence is at or
above the 0.7 threshold, and otherwise a decision with a null choice,
confidence exactly 0, the "consensus_failed" tag and the required
threshold recorded in its metadata. -/
theorem c8_consensus_threshold_behaviour
    (rep : List (String × ℚ)) (votes : List Vote) (options : List String)
    (hne : votes ≠ [])
    (hT : CollectiveIntelligence.total_weight rep votes ≠ 0) :
    ∃ w, CollectiveIntelligence.weighted_voting rep votes options = some w ∧
      CollectiveIntelligence.consensus_voting rep votes options =
        some (if CollectiveIntelligence.consensus_threshold ≤ w.confidence then
                { w with method_used := "consensus" }
              else
                { decision := none, confidence := 0, votes := votes,
                  method_used := "consensus_failed",
                  metadata := .requiredThreshold
                    CollectiveIntelligence.consensus_threshold }) := by
  obtain ⟨w, -, heqw⟩ := CollectiveIntelligence.weighted_voting_eq options hne hT
  have hex : ∃ d, CollectiveIntelligence.weighted_voting rep votes options = some d :=
    ⟨_, heqw⟩
  clear heqw
  obtain ⟨d, heq⟩ := hex
  refine ⟨d, heq, ?_⟩
  unfold CollectiveIntelligence.consensus_voting
  rw [heq]
  show (if CollectiveIntelligence.consensus_threshold ≤ d.confidence then
          some { d with method_used := "consensus" }
        else
          some { decision := none, confidence := 0, votes := votes,
                 method_used := "consensus_failed",
                 metadata := .requiredThreshold CollectiveIntelligence.consensus_threshold })
      = some (if CollectiveIntelligence.consensus_threshold ≤ d.confidence then
                { d with method_used := "consensus" }
              else
                { decision := none, confidence := 0, votes := votes,
                  method_used := "consensus_failed",
                  metadata := .requiredThreshold CollectiveIntelligence.consensus_threshold })
  split_ifs with hc <;> rfl

/-- C8 (amended, witness): two unanimous unit-confidence votes; the
weighted confidence is 1, at or above the threshold, so the consensus
decision is the relabelled weighted result. -/
theorem c8_consensus_threshold_behaviour_witness :
    c8wVotes ≠ [] ∧ CollectiveIntelligence.total_weight [] c8wVotes ≠ 0 ∧
    ∃ w, CollectiveIntelligence.weighted_voting [] c8wVotes ["y", "z"] = some w ∧
      CollectiveIntelligence.consensus_voting [] c8wVotes ["y", "z"] =
        some (if CollectiveIntelligence.consensus_threshold ≤ w.confidence then
                { w with method_used := "consensus" }
              else
                { decision := none, confidence := 0, votes := c8wVotes,
                  method_used := "consensus_failed",
                  metadata := .requiredThreshold
                    CollectiveIntelligence.consensus_threshold }) :=
  ⟨by simp [c8wVotes],
   by norm_num [CollectiveIntelligence.total_weight, c8wVotes,
     CollectiveIntelligence.voteWeight, CollectiveIntelligence.reputationOf, qlookup],
   c8_consensus_threshold_behaviour [] c8wVotes ["y", "z"] (by simp [c8wVotes])
     (by norm_num [CollectiveIntelligence.total_weight, c8wVotes,
       CollectiveIntelligence.voteWeight, CollectiveIntelligence.reputationOf, qlookup])⟩


/-! ## Backlog ordering lemmas (for C3) -/

theorem keyLeB_trans {a b c : QEntry} (hab : keyLeB a b = true)
    (hbc : keyLeB b c = true) : keyLeB a c = true := by
  simp only [keyLeB, Bool.or_eq_true, Bool.and_eq_true, decide_eq_true_eq] at *
  omega

theorem keyLeB_total (a b : QEntry) : keyLeB a b = true ∨ keyLeB b a = true := by
  simp only [keyLeB, Bool.or_eq_true, Bool.and_eq_true, decide_eq_true_eq]
  omega

theorem popMin_none {q : List QEntry} : popMin q = none ↔ q = [] := by
  cases q with
  | nil => simp [popMin]
  | cons e rest =>
    simp only [popMin]
    cases hpm : popMin rest with
    | none => simp
    | some p =>
      obtain ⟨m, rest'⟩ := p
      by_cases h : keyLeB e m <;> simp [h]

theorem popMin_perm : ∀ {q : List QEntry} {e : QEntry} {rest : List QEntry},
    popMin q = some (e, rest) → q.Perm (e :: rest) := by
  intro q
  induction q with
  | nil => intro e rest h; simp [popMin] at h
  | cons a t ih =>
    intro e rest h
    simp only [popMin] at h
    split at h
    next hpm =>
      have ht : t = [] := popMin_none.mp hpm
      simp only [Option.some.injEq, Prod.mk.injEq] at h
      obtain ⟨rfl, rfl⟩ := h
      rw [ht]
    next m t' hpm =>
      have hperm : t.Perm (m :: t') := ih hpm
      split at h
      next hk =>
        simp only [Option.some.injEq, Prod.mk.injEq] at h
        obtain ⟨rfl, rfl⟩ := h
        exact List.Perm.refl _
      next hk =>
        simp only [Option.some.injEq, Prod.mk.injEq] at h
        obtain ⟨rfl, rfl⟩ := h
        exact List.Perm.trans (hperm.cons a) (List.Perm.swap m a t')

theorem popMin_min : ∀ {q : List QEntry} {e : QEntry} {rest : List QEntry},
    popMin q = some (e, rest) → ∀ x ∈ rest, keyLeB e x = true := by
  intro q
  induction q with
  | nil => intro e rest h; simp [popMin] at h
  | cons a t ih =>
    intro e rest h x hx
    simp only [popMin] at h
    split at h
    next hpm =>
      simp only [Option.some.injEq, Prod.mk.injEq] at h
      obtain ⟨rfl, rfl⟩ := h
      simp at hx
    next m t' hpm =>
      split at h
      next hk =>
        simp only [Option.some.injEq, Prod.mk.injEq] at h
        obtain ⟨rfl, rfl⟩ := h
        have hmem := (popMin_perm hpm).mem_iff.mp hx
        rcases List.mem_cons.mp hmem with rfl | hx'
        · exact hk
        · exact keyLeB_trans hk (ih hpm x hx')
      next hk =>
        simp only [Option.some.injEq, Prod.mk.injEq] at h
        obtain ⟨rfl, rfl⟩ := h
        rcases List.mem_cons.mp hx with rfl | hx'
        · rcases keyLeB_total x m with hc | hc
          · exact absurd hc hk
          · exact hc
        · exact ih hpm x hx'

theorem popAllFuel_perm : ∀ (n : Nat) (q : List QEntry), q.length ≤ n →
    (popAllFuel n q).Perm q := by
  intro n
  induction n with
  | zero =>
    intro q hq
    have hq0 : q = [] := List.length_eq_zero.mp (Nat.le_zero.mp hq)
    simp [hq0, popAllFuel]
  | succ k ih =>
    intro q hq
    cases hpm : popMin q with
    | none =>
      have hq0 : q = [] := popMin_none.mp hpm
      simp [hq0, popAllFuel, popMin]
    | some p =>
      obtain ⟨e, rest⟩ := p
      have hperm := popMin_perm hpm
      have hlen : rest.length + 1 = q.length := by
        simpa using hperm.length_eq.symm
      simp only [popAllFuel, hpm]
      have hrest := ih rest (by omega)
      exact List.Perm.trans (hrest.cons e) hperm.symm

theorem popAllFuel_sorted : ∀ (n : Nat) (q : List QEntry), q.length ≤ n →
    List.Pairwise (fun a b => keyLeB a b = true) (popAllFuel n q) := by
  intro n
  induction n with
  | zero => intro q hq; simp [popAllFuel]
  | succ k ih =>
    intro q hq
    cases hpm : popMin q with
    | none => simp [popAllFuel, hpm]
    | some p =>
      obtain ⟨e, rest⟩ := p
      simp only [popAllFuel, hpm]
      have hlen : rest.length + 1 = q.length := by
        simpa using (popMin_perm hpm).length_eq.symm
      refine List.Pairwise.cons ?_ (ih rest (by omega))
      intro x hx
      have hx' : x ∈ rest := ((popAllFuel_perm k rest (by omega)).mem_iff).mp hx
      exact popMin_min hpm x hx'

theorem enqueueAll_queue : ∀ (ts : List Task) (s : DistState),
    ((enqueueAll ts s).task_queue.map QEntry.task = s.task_queue.map QEntry.task ++ ts) ∧
    ((enqueueAll ts s).task_queue.map QEntry.seq
      = s.task_queue.map QEntry.seq ++ (List.range ts.length).map (s.clock + ·)) ∧
    (enqueueAll ts s).clock = s.clock + ts.length := by
  intro ts
  induction ts with
  | nil => intro s; simp [enqueueAll]
  | cons t ts ih =>
    intro s
    have hstep : enqueueAll (t :: ts) s = enqueueAll ts (add_task t s) := by
      simp [enqueueAll]
    rw [hstep]
    obtain ⟨h1, h2, h3⟩ := ih (add_task t s)
    refine ⟨?_, ?_, ?_⟩
    · rw [h1]
      simp [add_task]
    · rw [h2]
      have hr : (List.range (t :: ts).length).map (s.clock + ·)
          = s.clock :: (List.range ts.length).map ((add_task t s).clock + ·) := by
        simp only [List.length_cons, List.range_succ_eq_map, List.map_cons,
          List.map_map, Nat.add_zero, add_task]
        refine congrArg _ (List.map_congr_left ?_)
        intro i _
        simp [Function.comp]
        omega
      rw [hr]
      simp [add_task]
    · rw [h3]
      simp [add_task]
      omega

/-- C3 (confirmed).  After any sequence of add_task calls on a fresh
distributor, the backlog holds exactly the submitted tasks, the heap
tie-break tick of the i-th submitted task is i, and consuming the
backlog in the pop order used by distribute_tasks yields every entry
exactly once (a permutation), in strictly decreasing priority with
ties broken by ascending tick — i.e. highest numeric priority first
and FIFO submission order among equal priorities. -/
theorem c3_backlog_pop_order (ts : List Task) :
    ((enqueueAll ts ({} : DistState)).task_queue.map QEntry.task = ts) ∧
    ((enqueueAll ts ({} : DistState)).task_queue.map QEntry.seq = List.range ts.length) ∧
    (popAll ((enqueueAll ts ({} : DistState)).task_queue)).Perm
      ((enqueueAll ts ({} : DistState)).task_queue) ∧
    List.Pairwise
      (fun e e' => e'.task.priority < e.task.priority ∨
        (e.task.priority = e'.task.priority ∧ e.seq < e'.seq))
      (popAll ((enqueueAll ts ({} : DistState)).task_queue)) := by
  obtain ⟨h1, h2, -⟩ := enqueueAll_queue ts ({} : DistState)
  have h1' : (enqueueAll ts ({} : DistState)).task_queue.map QEntry.task = ts := by
    simpa using h1
  have h2' : (enqueueAll ts ({} : DistState)).task_queue.map QEntry.seq
      = List.range ts.length := by
    simpa using h2
  have hperm := popAllFuel_perm
    ((enqueueAll ts ({} : DistState)).task_queue).length
    ((enqueueAll ts ({} : DistState)).task_queue) le_rfl
  have hsorted := popAllFuel_sorted
    ((enqueueAll ts ({} : DistState)).task_queue).length
    ((enqueueAll ts ({} : DistState)).task_queue) le_rfl
  refine ⟨h1', h2', hperm, ?_⟩
  have hqnodup : (((enqueueAll ts ({} : DistState)).task_queue).map QEntry.seq).Nodup := by
    rw [h2']
    exact List.nodup_range ts.length
  have hpermmap : ((popAll ((enqueueAll ts ({} : DistState)).task_queue)).map QEntry.seq).Perm
      (((enqueueAll ts ({} : DistState)).task_queue).map QEntry.seq) :=
    hperm.map QEntry.seq
  have hpopnodup : ((popAll ((enqueueAll ts ({} : DistState)).task_queue)).map QEntry.seq).Nodup :=
    (hpermmap.nodup_iff).mpr hqnodup
  have hpw_ne : List.Pairwise (fun a b : QEntry => a.seq ≠ b.seq)
      (popAll ((enqueueAll ts ({} : DistState)).task_queue)) := by
    have hh : List.Pairwise (fun a b : Nat => a ≠ b)
        ((popAll ((enqueueAll ts ({} : DistState)).task_queue)).map QEntry.seq) := hpopnodup
    exact (List.pairwise_map).mp hh
  have hand := hsorted.and hpw_ne
  refine hand.imp ?_
  intro a b hab
  obtain ⟨hle, hne⟩ := hab
  simp only [keyLeB, Bool.or_eq_true, Bool.and_eq_true, decide_eq_true_eq] at hle
  omega


/-! ## Broadcast lemmas (for C7) -/

theorem nodup_keys_cons {α : Type} {p : String × α} {t : List (String × α)}
    (h : (((p :: t) : List (String × α)).map Prod.fst).Nodup) :
    p.1 ∉ t.map Prod.fst ∧ (t.map Prod.fst).Nodup := by
  rw [List.map_cons] at h
  exact List.nodup_cons.mp h

theorem map_ite_eq_self {α : Type} (g : String × α → String × α) (k : String)
    {l : List (String × α)} (h : ∀ p ∈ l, p.1 ≠ k) :
    l.map (fun p => if p.1 = k then g p else p) = l := by
  induction l with
  | nil => rfl
  | cons p t ih =>
    rw [List.map_cons, if_neg (h p (by simp))]
    rw [ih (fun r hr => h r (by simp [hr]))]

theorem filter_ne_eq_self {α : Type} {l : List (String × α)} {k : String}
    (h : ∀ p ∈ l, p.1 ≠ k) : l.filter (fun p => p.1 != k) = l := by
  induction l with
  | nil => rfl
  | cons p t ih =>
    rw [List.filter_cons_of_pos (by simpa using h p (by simp))]
    rw [ih (fun r hr => h r (by simp [hr]))]

theorem qlookup_self_of_nodup {α : Type} {l : List (String × α)}
    (hnodup : (l.map Prod.fst).Nodup) {p : String × α} (hp : p ∈ l) :
    qlookup p.1 l = some p.2 := by
  induction l with
  | nil => cases hp
  | cons a t ih =>
    rcases List.mem_cons.mp hp with rfl | hp'
    · simp [qlookup]
    · have h0 := nodup_keys_cons hnodup
      have hne : a.1 ≠ p.1 := by
        intro hcon
        exact h0.1 (hcon ▸ List.mem_map_of_mem Prod.fst hp')
      rw [qlookup, if_neg hne]
      exact ih h0.2 hp'

theorem setKey_map_fst {α : Type} {l : List (String × α)} {k : String} {v : α}
    (h : (qlookup k l).isSome) : (setKey l k v).map Prod.fst = l.map Prod.fst := by
  induction l with
  | nil => simp [qlookup] at h
  | cons p t ih =>
    by_cases hp : p.1 = k
    · simp [setKey, hp]
    · have h2 : (qlookup k t).isSome := by simpa [qlookup, hp] using h
      simp [setKey, hp, ih h2]

theorem setKey_eq_map_append {l : List (String × List Message)} {k : String}
    {q : List Message} (hnodup : (l.map Prod.fst).Nodup)
    (hq : qlookup k l = some q) (msg : Message) :
    setKey l k (q ++ [msg])
      = l.map (fun p => if p.1 = k then (p.1, p.2 ++ [msg]) else p) := by
  induction l with
  | nil => simp [qlookup] at hq
  | cons p t ih =>
    by_cases hp : p.1 = k
    · have hq2 : p.2 = q := by
        have := hq
        rw [qlookup, if_pos hp] at this
        exact (Option.some.injEq _ _ ▸ this).symm ▸ rfl
      have htail : ∀ r ∈ t, r.1 ≠ k := by
        have h0 := nodup_keys_cons hnodup
        intro r hr hcon
        exact h0.1 (hp ▸ hcon ▸ List.mem_map_of_mem Prod.fst hr)
      rw [List.map_cons, if_pos hp, map_ite_eq_self _ _ htail]
      rw [setKey, if_pos hp]
      rw [← hq2, hp]
    · have hq2 : qlookup k t = some q := by
        have := hq
        rwa [qlookup, if_neg hp] at this
      have h0 := nodup_keys_cons hnodup
      rw [List.map_cons, if_neg hp, setKey, if_neg hp, ih h0.2 hq2]

theorem filter_ne_length {α : Type} : ∀ {l : List (String × α)} {k : String},
    (l.map Prod.fst).Nodup → (qlookup k l).isSome →
    (l.filter (fun p => p.1 != k)).length = l.length - 1 := by
  intro l
  induction l with
  | nil => intro k _ h; simp [qlookup] at h
  | cons p t ih =>
    intro k hnodup hsome
    by_cases hp : p.1 = k
    · have htail : ∀ r ∈ t, r.1 ≠ k := by
        have h0 := nodup_keys_cons hnodup
        intro r hr hcon
        exact h0.1 (hp ▸ hcon ▸ List.mem_map_of_mem Prod.fst hr)
      rw [List.filter_cons_of_neg (by simp [hp])]
      rw [filter_ne_eq_self htail]
      simp
    · rw [List.filter_cons_of_pos (by simp [hp])]
      have hsome2 : (qlookup k t).isSome := by
        have := hsome
        rwa [qlookup, if_neg hp] at this
      have hlen : 1 ≤ t.length := by
        cases ht : t with
        | nil => rw [ht] at hsome2; simp [qlookup] at hsome2
        | cons a b => simp [ht]
      have h0 := nodup_keys_cons hnodup
      rw [List.length_cons, ih h0.2 hsome2]
      simp only [List.length_cons]
      omega

theorem deliver_to_agent_found {s : BusState} {aid : String} {m : Message}
    {q : List Message} (hq : qlookup aid s.message_queues = some q)
    (hfull : MessageBus.queueFull s q = false) :
    MessageBus.deliver_to_agent s aid m =
      some (true, { s with
        message_queues := setKey s.message_queues aid (q ++ [m]),
        messages_delivered := s.messages_delivered + 1 }) := by
  simp [MessageBus.deliver_to_agent, hq, hfull]

theorem broadcastGo_spec (m : Message) :
    ∀ (ids : List String) (cnt : Nat) (s : BusState),
      ids.Nodup →
      (s.message_queues.map Prod.fst).Nodup →
      (∀ id ∈ ids, id ≠ m.sender_id →
        ∃ q, qlookup id s.message_queues = some q ∧
          MessageBus.queueFull s q = false) →
      ∃ b s', MessageBus.broadcastGo m ids cnt s = some (b, s') ∧
        s'.message_queues = s.message_queues.map
          (fun p => if p.1 ∈ ids ∧ p.1 ≠ m.sender_id then (p.1, p.2 ++ [m]) else p) := by
  intro ids
  induction ids with
  | nil =>
    intro cnt s _ _ _
    refine ⟨decide (0 < cnt), s, rfl, ?_⟩
    symm
    have hid : ∀ p ∈ s.message_queues,
        (if p.1 ∈ ([] : List String) ∧ p.1 ≠ m.sender_id
         then (p.1, p.2 ++ [m]) else p) = p := by
      intro p _
      simp
    rw [List.map_congr_left hid]
    simp
  | cons id0 rest ih =>
    intro cnt s hids hkeys hav
    by_cases hsend : id0 = m.sender_id
    · have hstep : MessageBus.broadcastGo m (id0 :: rest) cnt s
          = MessageBus.broadcastGo m rest cnt s := by
        simp [MessageBus.broadcastGo, hsend]
      obtain ⟨b, s', heq, hq⟩ := ih cnt s (List.nodup_cons.mp hids).2 hkeys
        (fun id hid hne => hav id (by simp [hid]) hne)
      refine ⟨b, s', by rw [hstep]; exact heq, ?_⟩
      rw [hq]
      refine List.map_congr_left ?_
      intro p _
      by_cases hmem : p.1 ∈ rest ∧ p.1 ≠ m.sender_id
      · rw [if_pos hmem, if_pos ⟨List.mem_cons.mpr (Or.inr hmem.1), hmem.2⟩]
      · have hC : ¬(p.1 ∈ id0 :: rest ∧ p.1 ≠ m.sender_id) := by
          rintro ⟨hin, hne⟩
          rcases List.mem_cons.mp hin with heq0 | hin'
          · exact hne (heq0.trans hsend)
          · exact hmem ⟨hin', hne⟩
        rw [if_neg hmem, if_neg hC]
    · obtain ⟨q, hq0, hfull0⟩ := hav id0 (by simp) hsend
      have hdel := deliver_to_agent_found (m := m) hq0 hfull0
      have hstep : MessageBus.broadcastGo m (id0 :: rest) cnt s
          = MessageBus.broadcastGo m rest (cnt + 1)
              { s with
                  message_queues := setKey s.message_queues id0 (q ++ [m]),
                  messages_delivered := s.messages_delivered + 1 } := by
        simp [MessageBus.broadcastGo, hsend, hdel]
      have hkeys1 : ((setKey s.message_queues id0 (q ++ [m])).map Prod.fst).Nodup := by
        rw [setKey_map_fst (by simp [hq0])]
        exact hkeys
      have hav1 : ∀ id ∈ rest, id ≠ m.sender_id →
          ∃ q', qlookup id (setKey s.message_queues id0 (q ++ [m])) = some q' ∧
            MessageBus.queueFull
              { s with
                  message_queues := setKey s.message_queues id0 (q ++ [m]),
                  messages_delivered := s.messages_delivered + 1 } q' = false := by
        intro id hid hne
        obtain ⟨q', hq', hfull'⟩ := hav id (by simp [hid]) hne
        have hneid : id ≠ id0 := by
          intro hcon
          exact (List.nodup_cons.mp hids).1 (hcon ▸ hid)
        exact ⟨q', by rw [qlookup_setKey_ne hneid]; exact hq', hfull'⟩
      obtain ⟨b, s', heq, hqs⟩ := ih (cnt + 1)
        { s with
            message_queues := setKey s.message_queues id0 (q ++ [m]),
            messages_delivered := s.messages_delivered + 1 }
        (List.nodup_cons.mp hids).2 hkeys1 hav1
      refine ⟨b, s', by rw [hstep]; exact heq, ?_⟩
      rw [hqs]
      show (setKey s.message_queues id0 (q ++ [m])).map _ = _
      rw [setKey_eq_map_append hkeys hq0 m, List.map_map]
      refine List.map_congr_left ?_
      intro p hp
      by_cases hpid : p.1 = id0
      · have hnotrest : p.1 ∉ rest := by
          rw [hpid]
          exact (List.nodup_cons.mp hids).1
        have hc2 : p.1 ∈ id0 :: rest ∧ p.1 ≠ m.sender_id :=
          ⟨by simp [hpid], by rw [hpid]; exact hsend⟩
        simp only [Function.comp_apply, if_pos hpid, if_pos hc2]
        have hc1 : ¬((p.1 : String) ∈ rest ∧ (p.1 : String) ≠ m.sender_id) := by
          rintro ⟨hin, -⟩
          exact hnotrest hin
        rw [if_neg (by simpa using hc1)]
      · simp only [Function.comp_apply, if_neg hpid]
        by_cases hmem : p.1 ∈ rest ∧ p.1 ≠ m.sender_id
        · rw [if_pos hmem, if_pos ⟨List.mem_cons.mpr (Or.inr hmem.1), hmem.2⟩]
        · have hC : ¬(p.1 ∈ id0 :: rest ∧ p.1 ≠ m.sender_id) := by
            rintro ⟨hin, hne⟩
            rcases List.mem_cons.mp hin with heq0 | hin'
            · exact hpid heq0
            · exact hmem ⟨hin', hne⟩
          rw [if_neg hmem, if_neg hC]

/-- C7 (confirmed).  When the bus is running, the message's TTL has not
expired, no receiver is set (broadcast), the sender is registered and
no other mailbox is full: send_message succeeds without blocking, every
registered mailbox other than the sender's receives the message
appended at its tail, the sender's mailbox is untouched, and the
number of receiving mailboxes is exactly K-1 of the K registered. -/
theorem c7_broadcast_reaches_all_but_sender
    (now : ℚ) (m : Message) (s : BusState)
    (hrun : s.running = true)
    (httl : MessageBus.isExpired now m = false)
    (hbcast : m.receiver_id = none)
    (hnodup : (s.message_queues.map Prod.fst).Nodup)
    (hsender : (qlookup m.sender_id s.message_queues).isSome = true)
    (hroom : ∀ p ∈ s.message_queues, MessageBus.queueFull s p.2 = false) :
    ∃ b s', MessageBus.send_message now m s = some (b, s') ∧
      s'.message_queues = s.message_queues.map
        (fun p => if p.1 = m.sender_id then p else (p.1, p.2 ++ [m])) ∧
      (s.message_queues.filter (fun p => p.1 != m.sender_id)).length
        = s.message_queues.length - 1 := by
  have hav : ∀ id ∈ s.message_queues.map Prod.fst, id ≠ m.sender_id →
      ∃ q, qlookup id s.message_queues = some q ∧
        MessageBus.queueFull s q = false := by
    intro id hid _
    rcases List.mem_map.mp hid with ⟨p, hp, rfl⟩
    exact ⟨p.2, qlookup_self_of_nodup hnodup hp, hroom p hp⟩
  obtain ⟨b, s', heq, hqs⟩ := broadcastGo_spec m (s.message_queues.map Prod.fst) 0
    { s with
        messages_sent := s.messages_sent + 1,
        message_history := s.message_history ++ [m],
        broadcast_messages := s.broadcast_messages + 1 }
    hnodup hnodup hav
  have hsendeq : MessageBus.send_message now m s
      = MessageBus.broadcastGo m (s.message_queues.map Prod.fst) 0
          { s with
              messages_sent := s.messages_sent + 1,
              message_history := s.message_history ++ [m],
              broadcast_messages := s.broadcast_messages + 1 } := by
    simp [MessageBus.send_message, hrun, httl, hbcast, MessageBus.broadcast_message]
  refine ⟨b, s', by rw [hsendeq]; exact heq, ?_, ?_⟩
  · rw [hqs]
    refine List.map_congr_left ?_
    intro p hp
    by_cases hps : p.1 = m.sender_id
    · have hC : ¬(p.1 ∈ s.message_queues.map Prod.fst ∧ p.1 ≠ m.sender_id) := by
        rintro ⟨-, hne⟩
        exact hne hps
      rw [if_neg hC, if_pos hps]
    · have hC : p.1 ∈ s.message_queues.map Prod.fst ∧ p.1 ≠ m.sender_id :=
        ⟨List.mem_map_of_mem Prod.fst hp, hps⟩
      rw [if_pos hC, if_neg hps]
  · exact filter_ne_length hnodup hsender

/-- C7 (witness): three registered agents with empty unbounded-enough
mailboxes; a broadcast from "a" lands in exactly the two other
mailboxes. -/
theorem c7_broadcast_reaches_all_but_sender_witness :
    c7wBus.running = true ∧
    MessageBus.isExpired 0 c7wMsg = false ∧
    c7wMsg.receiver_id = none ∧
    ∃ b s', MessageBus.send_message 0 c7wMsg c7wBus = some (b, s') ∧
      s'.message_queues = c7wBus.message_queues.map
        (fun p => if p.1 = c7wMsg.sender_id then p else (p.1, p.2 ++ [c7wMsg])) ∧
      (c7wBus.message_queues.filter
        (fun p => p.1 != c7wMsg.sender_id)).length
        = c7wBus.message_queues.length - 1 :=
  ⟨rfl, rfl, rfl,
    (c7_broadcast_reaches_all_but_sender 0 c7wMsg c7wBus rfl rfl rfl
      (by decide) rfl (by decide)).imp
      (fun b hb => hb.imp fun s' hs' => hs')⟩

end Swarm
